import Mathlib

/-!
# Verification of the go-osprofiles hybrid security storage engine

Shallow embedding of the core of the `go-osprofiles` repository
(`pkg/store`): the field classifier, the split/merge algorithm, the
envelope-crypto decryption shape, the hybrid store `Set`/`Delete`
orchestration, the keyring availability probe, the in-memory backend
and the namespace/key validator.  Go structs are modelled as lists of
named fields over a small value universe; Go maps keyed by field names
are modelled as association lists (field names are distinct within one
struct, so iteration-order randomness of Go maps is irrelevant);
external effects (filesystem writes, the OS keyring, randomness, the
AES-GCM primitive) are modelled as explicit environments.
-/

deriving instance DecidableEq for Except

namespace OSProfiles

/-- Character-list implementation of `strings.ToLower` (ASCII-faithful
for the inputs at hand, and reducible by the kernel). -/
def toLowerString (s : String) : String := ⟨s.data.map Char.toLower⟩

/-- Character-list implementation of `strings.TrimSpace`. -/
def trimString (s : String) : String :=
  ⟨((s.data.dropWhile Char.isWhitespace).reverse.dropWhile Char.isWhitespace).reverse⟩

/-- The value universe for profile fields: Go strings, ints and bools. -/
inductive GoVal where
  | vstr (s : String)
  | vint (n : Int)
  | vbool (b : Bool)
  deriving DecidableEq, Repr

/-- Types of the value universe. -/
inductive GoTy where
  | str
  | int
  | bool
  deriving DecidableEq, Repr

/-- Dynamic type of a value (`reflect.TypeOf`). -/
def GoVal.ty : GoVal → GoTy
  | .vstr _ => .str
  | .vint _ => .int
  | .vbool _ => .bool

/-- Go zero value of a type (`reflect.New(t).Elem()`). -/
def GoTy.zero : GoTy → GoVal
  | .str => .vstr ""
  | .int => .vint 0
  | .bool => .vbool false

/-- One struct field: name, raw `security:"..."` tag (`""` when the tag
is absent, exactly as `reflect.StructTag.Get` reports it), exported
flag (`CanInterface`/`CanSet`), declared type and current value. -/
structure GoField where
  name : String
  tag : String
  exported : Bool
  ty : GoTy
  value : GoVal
  deriving DecidableEq, Repr

/-- A Go struct value: an ordered list of fields. -/
structure GoStruct where
  fields : List GoField
  deriving DecidableEq, Repr

/-- A value handed to the reflection-based API (`interface{}`): either
a struct or a non-struct primitive. -/
inductive GoAny where
  | struct (s : GoStruct)
  | prim (v : GoVal)
  deriving DecidableEq, Repr

/-- Errors of `pkg/store` relevant to the verified components
(`errors.go`). -/
inductive SecErr where
  | securityLevelInvalid
  | securityClassificationFailed
  | duplicateFieldClassification
  | securityModeUnavailable
  | keyringUnavailable
  | securityValidationFailed
  | storedValueInvalid
  | encryptedDataInvalid
  | authenticationFailed
  | keySizeInvalid
  | randFailed
  | keyringGetFailed
  | keyringSetFailed
  | writeFailed
  deriving DecidableEq, Repr

/-- `SecurityLevel` (`security.go`). -/
inductive SecurityLevel where
  | secure
  | plaintext
  | temporary
  deriving DecidableEq, Repr

/-- `DefaultSecurityLevel = SecurityLevelPlaintext` (`security.go:57`). -/
def DefaultSecurityLevel : SecurityLevel := .plaintext

/-- `ParseSecurityLevel` (`security.go:77-84`): lower-case and trim the
string, then require one of the three valid level names. -/
def ParseSecurityLevel (s : String) : Except SecErr SecurityLevel :=
  let t := toLowerString (trimString s)
  if t = "secure" then .ok .secure
  else if t = "plaintext" then .ok .plaintext
  else if t = "temporary" then .ok .temporary
  else .error .securityLevelInvalid

/-- `GetSecurityTag` (`security.go:96-109`): absent tag defaults to
plaintext; a present-but-unparsable tag also falls back to the
default. -/
def GetSecurityTag (tag : String) : SecurityLevel :=
  if tag = "" then DefaultSecurityLevel
  else
    match ParseSecurityLevel tag with
    | .ok level => level
    | .error _ => DefaultSecurityLevel

/-- `ValidateFieldSecurityTag` (`security.go:635-651`): absent tag is
fine; a present tag must parse. -/
def ValidateFieldSecurityTag (tag : String) : Except SecErr Unit :=
  if tag = "" then .ok ()
  else
    match ParseSecurityLevel tag with
    | .ok _ => .ok ()
    | .error _ => .error .securityValidationFailed

/-- `FieldSecurityInfo` (`security.go:42-47`). -/
structure FieldSecurityInfo where
  name : String
  level : SecurityLevel
  value : GoVal
  fieldType : GoTy
  deriving DecidableEq, Repr

/-- `SecurityClassification` (`security.go:50-54`). -/
structure SecurityClassification where
  SecureFields : List FieldSecurityInfo
  PlaintextFields : List FieldSecurityInfo
  TemporaryFields : List FieldSecurityInfo
  deriving DecidableEq, Repr

/-- The tuple appended for a field during classification. -/
def GoField.info (f : GoField) : FieldSecurityInfo :=
  ⟨f.name, GetSecurityTag f.tag, f.value, f.ty⟩

/-- The field loop of `ClassifyProfile` (`security.go:129-154`):
unexported fields are skipped, every other field is appended to the
bucket selected by its security tag, in declaration order. -/
def classifyFields : List GoField → SecurityClassification
  | [] => ⟨[], [], []⟩
  | f :: rest =>
    let c := classifyFields rest
    if f.exported then
      match GetSecurityTag f.tag with
      | .secure => ⟨f.info :: c.SecureFields, c.PlaintextFields, c.TemporaryFields⟩
      | .plaintext => ⟨c.SecureFields, f.info :: c.PlaintextFields, c.TemporaryFields⟩
      | .temporary => ⟨c.SecureFields, c.PlaintextFields, f.info :: c.TemporaryFields⟩
    else c

/-- `ClassifyProfile` (`security.go:112-157`): fails on a non-struct
input, otherwise buckets the fields. -/
def ClassifyProfile : GoAny → Except SecErr SecurityClassification
  | .struct s => .ok (classifyFields s.fields)
  | .prim _ => .error .securityClassificationFailed

/-- The duplicate scan of `ValidateSecurityClassification`
(`security.go:166-182`): walk all fields keeping the set of names seen
so far, failing on a repeat. -/
def checkDuplicateNames (seen : List String) :
    List FieldSecurityInfo → Except SecErr Unit
  | [] => .ok ()
  | f :: rest =>
    if f.name ∈ seen then .error .duplicateFieldClassification
    else checkDuplicateNames (f.name :: seen) rest

/-- `ValidateSecurityClassification` (`security.go:160-185`). -/
def ValidateSecurityClassification (c : SecurityClassification) :
    Except SecErr Unit :=
  checkDuplicateNames [] (c.SecureFields ++ c.PlaintextFields ++ c.TemporaryFields)

/-- `SplitData` (`security.go:362-366`); the Go maps keyed by field
name are association lists here. -/
structure SplitData where
  SecureData : List (String × GoVal)
  PlaintextData : List (String × GoVal)
  TemporaryData : List (String × GoVal)
  deriving DecidableEq, Repr

/-- `SplitProfileData` (`security.go:369-399`): classify, validate,
then redistribute each bucket into its map. -/
def SplitProfileData (profile : GoAny) : Except SecErr SplitData :=
  match ClassifyProfile profile with
  | .error _ => .error .securityClassificationFailed
  | .ok classification =>
    match ValidateSecurityClassification classification with
    | .error _ => .error .securityValidationFailed
    | .ok _ =>
      .ok ⟨classification.SecureFields.map (fun f => (f.name, f.value)),
           classification.PlaintextFields.map (fun f => (f.name, f.value)),
           classification.TemporaryFields.map (fun f => (f.name, f.value))⟩

/-- A struct type as reflection sees it: per-field name, struct tag,
exportedness and type (`reflect.Type` of a struct). -/
structure FieldTy where
  name : String
  tag : String
  exported : Bool
  ty : GoTy
  deriving DecidableEq, Repr

/-- The `reflect.Type` of a struct value. -/
def GoStruct.structTy (s : GoStruct) : List FieldTy :=
  s.fields.map (fun f => ⟨f.name, f.tag, f.exported, f.ty⟩)

/-- `reflect.New(profileType).Elem()`: a zero-valued struct of the
given type. -/
def zeroStruct (t : List FieldTy) : GoStruct :=
  ⟨t.map (fun ft => ⟨ft.name, ft.tag, ft.exported, ft.ty, ft.ty.zero⟩)⟩

/-- `newVal.FieldByName(n)` followed by the `CanSet`/assignability
guards of `CombineSplitData` (`security.go:426-434`): the first field
named `n` is set to `v` when it is settable (exported) and `v`'s
dynamic type is assignable to the field type; otherwise nothing
changes. -/
def setFieldByName (fields : List GoField) (n : String) (v : GoVal) :
    List GoField :=
  match fields with
  | [] => []
  | f :: rest =>
    if f.name = n then
      (if f.exported = true ∧ v.ty = f.ty then { f with value := v } else f) :: rest
    else f :: setFieldByName rest n v

/-- The per-map loop of `CombineSplitData`: set each named field from
the map entries. -/
def applyDataMap (fields : List GoField) :
    List (String × GoVal) → List GoField
  | [] => fields
  | (n, v) :: rest => applyDataMap (setFieldByName fields n v) rest

/-- `CombineSplitData` (`security.go:402-439`): allocate a zero value
of the target struct type, then set fields from the secure, plaintext
and (optionally) temporary maps. -/
def CombineSplitData (profileType : List FieldTy) (split : SplitData)
    (includeTemporary : Bool) : GoStruct :=
  let s0 := (zeroStruct profileType).fields
  let s1 := applyDataMap s0 split.SecureData
  let s2 := applyDataMap s1 split.PlaintextData
  let s3 := if includeTemporary then applyDataMap s2 split.TemporaryData else s2
  ⟨s3⟩

/-! ## Classification lemmas -/

/-- Predicate selecting the fields that land in the bucket of level `lv`. -/
def inBucket (lv : SecurityLevel) (f : GoField) : Bool :=
  f.exported && decide (GetSecurityTag f.tag = lv)

theorem classifyFields_secure (l : List GoField) :
    (classifyFields l).SecureFields = (l.filter (inBucket .secure)).map GoField.info := by
  induction l with
  | nil => rfl
  | cons f rest ih =>
    by_cases hx : f.exported = true
    · cases hlv : GetSecurityTag f.tag <;>
        simp [classifyFields, List.filter_cons, inBucket, hx, hlv, ih]
    · simp only [Bool.not_eq_true] at hx
      simp [classifyFields, List.filter_cons, inBucket, hx, ih]

theorem classifyFields_plaintext (l : List GoField) :
    (classifyFields l).PlaintextFields = (l.filter (inBucket .plaintext)).map GoField.info := by
  induction l with
  | nil => rfl
  | cons f rest ih =>
    by_cases hx : f.exported = true
    · cases hlv : GetSecurityTag f.tag <;>
        simp [classifyFields, List.filter_cons, inBucket, hx, hlv, ih]
    · simp only [Bool.not_eq_true] at hx
      simp [classifyFields, List.filter_cons, inBucket, hx, ih]

theorem classifyFields_temporary (l : List GoField) :
    (classifyFields l).TemporaryFields = (l.filter (inBucket .temporary)).map GoField.info := by
  induction l with
  | nil => rfl
  | cons f rest ih =>
    by_cases hx : f.exported = true
    · cases hlv : GetSecurityTag f.tag <;>
        simp [classifyFields, List.filter_cons, inBucket, hx, hlv, ih]
    · simp only [Bool.not_eq_true] at hx
      simp [classifyFields, List.filter_cons, inBucket, hx, ih]

@[simp] theorem info_name (f : GoField) : f.info.name = f.name := rfl

/-- The concatenated field-name list of all three buckets produced by
classification. -/
def allBucketNames (c : SecurityClassification) : List String :=
  (c.SecureFields ++ c.PlaintextFields ++ c.TemporaryFields).map FieldSecurityInfo.name

theorem bucket_names_eq (l : List GoField) (lv : SecurityLevel) :
    ((l.filter (inBucket lv)).map GoField.info).map FieldSecurityInfo.name =
      (l.filter (inBucket lv)).map GoField.name := by
  rw [List.map_map]; rfl

/-- Distinct struct-field names make the concatenated bucket names
distinct: each field satisfies `inBucket lv` for exactly one `lv`. -/
theorem allBucketNames_nodup (l : List GoField)
    (h : (l.map GoField.name).Nodup) :
    (allBucketNames (classifyFields l)).Nodup := by
  have hinj : ∀ x ∈ l, ∀ y ∈ l, x.name = y.name → x = y :=
    fun x hx y hy hxy => List.inj_on_of_nodup_map h hx hy hxy
  have hsub : ∀ lv : SecurityLevel, ((l.filter (inBucket lv)).map GoField.name).Nodup := by
    intro lv
    exact ((List.filter_sublist l).map GoField.name).nodup h
  have hdisj : ∀ lv₁ lv₂ : SecurityLevel, lv₁ ≠ lv₂ →
      List.Disjoint ((l.filter (inBucket lv₁)).map GoField.name)
        ((l.filter (inBucket lv₂)).map GoField.name) := by
    intro lv₁ lv₂ hne a ha₁ ha₂
    obtain ⟨f₁, hf₁, rfl⟩ := List.mem_map.mp ha₁
    obtain ⟨f₂, hf₂, hname⟩ := List.mem_map.mp ha₂
    obtain ⟨hf₁l, hb₁⟩ := List.mem_filter.mp hf₁
    obtain ⟨hf₂l, hb₂⟩ := List.mem_filter.mp hf₂
    have : f₁ = f₂ := hinj f₁ hf₁l f₂ hf₂l hname.symm
    subst this
    simp only [inBucket, Bool.and_eq_true, decide_eq_true_eq] at hb₁ hb₂
    exact hne (hb₁.2.symm.trans hb₂.2)
  unfold allBucketNames
  rw [classifyFields_secure, classifyFields_plaintext, classifyFields_temporary]
  rw [List.map_append, List.map_append]
  rw [bucket_names_eq, bucket_names_eq, bucket_names_eq]
  rw [List.nodup_append, List.nodup_append]
  refine ⟨⟨hsub _, hsub _, hdisj _ _ (by simp)⟩, hsub _, ?_⟩
  intro a ha hmem
  rcases List.mem_append.mp ha with h1 | h2
  · exact hdisj .secure .temporary (by simp) h1 hmem
  · exact hdisj .plaintext .temporary (by simp) h2 hmem

theorem checkDuplicateNames_ok (l : List FieldSecurityInfo) :
    ∀ seen : List String,
      (l.map FieldSecurityInfo.name).Nodup →
      (∀ f ∈ l, f.name ∉ seen) →
      checkDuplicateNames seen l = .ok () := by
  induction l with
  | nil => intro seen _ _; rfl
  | cons f rest ih =>
    intro seen hnodup hdisj
    simp only [List.map_cons, List.nodup_cons] at hnodup
    unfold checkDuplicateNames
    rw [if_neg (hdisj f (List.mem_cons_self f rest))]
    refine ih _ hnodup.2 ?_
    intro g hg hmem
    rcases List.mem_cons.mp hmem with heq | hseen
    · exact hnodup.1 (heq ▸ List.mem_map_of_mem FieldSecurityInfo.name hg)
    · exact hdisj g (List.mem_cons_of_mem f hg) hseen

/-- Classification of a struct with distinct field names always passes
the duplicate check. -/
theorem validate_classifyFields_ok (l : List GoField)
    (h : (l.map GoField.name).Nodup) :
    ValidateSecurityClassification (classifyFields l) = .ok () := by
  refine checkDuplicateNames_ok _ [] ?_ (by simp)
  have := allBucketNames_nodup l h
  simpa [allBucketNames] using this

/-- Closed form of `SplitProfileData` on a struct with distinct field
names: each map collects exactly the exported fields of its level. -/
theorem splitProfileData_eq (l : List GoField)
    (h : (l.map GoField.name).Nodup) :
    SplitProfileData (.struct ⟨l⟩) =
      .ok ⟨(l.filter (inBucket .secure)).map (fun f => (f.name, f.value)),
           (l.filter (inBucket .plaintext)).map (fun f => (f.name, f.value)),
           (l.filter (inBucket .temporary)).map (fun f => (f.name, f.value))⟩ := by
  unfold SplitProfileData
  simp only [ClassifyProfile, validate_classifyFields_ok l h]
  rw [classifyFields_secure, classifyFields_plaintext, classifyFields_temporary]
  rw [List.map_map, List.map_map, List.map_map]
  rfl

/-! ## Merge lemmas -/

/-- The effect of one `CombineSplitData` map entry on one field. -/
def updEntry (n : String) (v : GoVal) (f : GoField) : GoField :=
  if f.name = n ∧ f.exported = true ∧ v.ty = f.ty then { f with value := v } else f

/-- The effect of a whole data map on one field. -/
def updAll (m : List (String × GoVal)) (f : GoField) : GoField :=
  m.foldl (fun g p => updEntry p.1 p.2 g) f

@[simp] theorem updEntry_name (n : String) (v : GoVal) (f : GoField) :
    (updEntry n v f).name = f.name := by
  unfold updEntry; split <;> rfl

@[simp] theorem updEntry_exported (n : String) (v : GoVal) (f : GoField) :
    (updEntry n v f).exported = f.exported := by
  unfold updEntry; split <;> rfl

theorem updEntry_of_name_ne (n : String) (v : GoVal) (f : GoField)
    (h : f.name ≠ n) : updEntry n v f = f := by
  unfold updEntry
  rw [if_neg]
  intro hc
  exact h hc.1

theorem updEntry_of_unexported (n : String) (v : GoVal) (f : GoField)
    (h : f.exported = false) : updEntry n v f = f := by
  unfold updEntry
  rw [if_neg]
  intro hc
  rw [h] at hc
  exact Bool.false_ne_true hc.2.1

theorem map_eq_self_of_eq_on {α : Type} (l : List α) (f : α → α)
    (h : ∀ x ∈ l, f x = x) : l.map f = l := by
  conv_rhs => rw [← List.map_id l]
  exact List.map_congr_left (by simpa using h)

/-- With distinct field names, setting one field by name is a pointwise
map over the field list. -/
theorem setFieldByName_eq_map (l : List GoField) (n : String) (v : GoVal)
    (h : (l.map GoField.name).Nodup) :
    setFieldByName l n v = l.map (updEntry n v) := by
  induction l with
  | nil => rfl
  | cons f rest ih =>
    simp only [List.map_cons, List.nodup_cons] at h
    by_cases hf : f.name = n
    · have hrest : rest.map (updEntry n v) = rest := by
        apply map_eq_self_of_eq_on
        intro g hg
        apply updEntry_of_name_ne
        intro hgn
        have hfg : f.name = g.name := by rw [hf, hgn]
        exact h.1 (hfg ▸ List.mem_map_of_mem GoField.name hg)
      simp only [setFieldByName, if_pos hf, List.map_cons, hrest]
      congr 1
      simp [updEntry, hf]
    · simp only [setFieldByName, if_neg hf, List.map_cons, ih h.2]
      congr 1
      exact (updEntry_of_name_ne n v f hf).symm

/-- Applying a data map with distinct field names is a pointwise map. -/
theorem applyDataMap_eq_map (m : List (String × GoVal)) :
    ∀ l : List GoField, (l.map GoField.name).Nodup →
      applyDataMap l m = l.map (updAll m) := by
  induction m with
  | nil =>
    intro l _
    exact (map_eq_self_of_eq_on l (updAll []) (fun f _ => rfl)).symm
  | cons p rest ih =>
    intro l h
    obtain ⟨n, v⟩ := p
    have hstep := setFieldByName_eq_map l n v h
    have hnames : ((l.map (updEntry n v)).map GoField.name).Nodup := by
      rw [List.map_map]
      have : (GoField.name ∘ updEntry n v) = GoField.name := by
        funext g; simp
      rwa [this]
    simp only [applyDataMap, hstep, ih _ hnames, List.map_map]
    apply List.map_congr_left
    intro f _
    rfl

theorem applyDataMap_append (a b : List (String × GoVal)) :
    ∀ l : List GoField, applyDataMap (applyDataMap l a) b = applyDataMap l (a ++ b) := by
  induction a with
  | nil => intro l; rfl
  | cons p rest ih =>
    intro l
    obtain ⟨n, v⟩ := p
    simp only [applyDataMap, List.cons_append, ih, List.append_eq]

theorem updAll_of_not_mem (m : List (String × GoVal)) (f : GoField)
    (h : f.name ∉ m.map Prod.fst) : updAll m f = f := by
  induction m with
  | nil => rfl
  | cons p rest ih =>
    simp only [List.map_cons, List.mem_cons] at h
    push_neg at h
    unfold updAll List.foldl
    rw [updEntry_of_name_ne p.1 p.2 f h.1]
    exact ih h.2

theorem updAll_of_unexported (m : List (String × GoVal)) (f : GoField)
    (h : f.exported = false) : updAll m f = f := by
  induction m with
  | nil => rfl
  | cons p rest ih =>
    unfold updAll List.foldl
    rw [updEntry_of_unexported p.1 p.2 f h]
    exact ih

/-- With distinct map keys, the unique entry for a settable, type-correct
field determines its final value. -/
theorem updAll_of_mem (m : List (String × GoVal)) (f : GoField) (v : GoVal)
    (hnodup : (m.map Prod.fst).Nodup) (hmem : (f.name, v) ∈ m)
    (hexp : f.exported = true) (hty : v.ty = f.ty) :
    updAll m f = { f with value := v } := by
  induction m with
  | nil => exact absurd hmem (List.not_mem_nil _)
  | cons p rest ih =>
    simp only [List.map_cons, List.nodup_cons] at hnodup
    rcases List.mem_cons.mp hmem with heq | hrest
    · unfold updAll List.foldl
      rw [← heq]
      unfold updEntry
      rw [if_pos ⟨rfl, hexp, hty⟩]
      have : ({ f with value := v } : GoField).name ∉ rest.map Prod.fst := by
        rw [← heq] at hnodup
        exact hnodup.1
      exact updAll_of_not_mem rest _ this
    · have hne : f.name ≠ p.1 := by
        intro hc
        exact hnodup.1 (hc ▸ List.mem_map_of_mem Prod.fst hrest)
      unfold updAll List.foldl
      rw [updEntry_of_name_ne p.1 p.2 f hne]
      exact ih hnodup.2 hrest

/-- The concatenation of the three maps of `SplitProfileData`. -/
def allMapEntries (l : List GoField) : List (String × GoVal) :=
  (l.filter (inBucket .secure)).map (fun f => (f.name, f.value)) ++
    (l.filter (inBucket .plaintext)).map (fun f => (f.name, f.value)) ++
    (l.filter (inBucket .temporary)).map (fun f => (f.name, f.value))

theorem allMapEntries_fst (l : List GoField) :
    (allMapEntries l).map Prod.fst =
      (l.filter (inBucket .secure)).map GoField.name ++
        (l.filter (inBucket .plaintext)).map GoField.name ++
        (l.filter (inBucket .temporary)).map GoField.name := by
  unfold allMapEntries
  rw [List.map_append, List.map_append, List.map_map, List.map_map, List.map_map]
  rfl

theorem allMapEntries_fst_nodup (l : List GoField)
    (h : (l.map GoField.name).Nodup) :
    ((allMapEntries l).map Prod.fst).Nodup := by
  have := allBucketNames_nodup l h
  unfold allBucketNames at this
  rw [classifyFields_secure, classifyFields_plaintext, classifyFields_temporary] at this
  rw [List.map_append, List.map_append] at this
  rw [bucket_names_eq, bucket_names_eq, bucket_names_eq] at this
  rw [allMapEntries_fst]
  exact this

theorem mem_allMapEntries_of_exported (l : List GoField) (f : GoField)
    (hf : f ∈ l) (hexp : f.exported = true) :
    (f.name, f.value) ∈ allMapEntries l := by
  have hb : inBucket (GetSecurityTag f.tag) f = true := by
    simp [inBucket, hexp]
  have hmem : f ∈ l.filter (inBucket (GetSecurityTag f.tag)) :=
    List.mem_filter.mpr ⟨hf, hb⟩
  have hpair : (f.name, f.value) ∈
      (l.filter (inBucket (GetSecurityTag f.tag))).map (fun g => (g.name, g.value)) :=
    List.mem_map_of_mem _ hmem
  unfold allMapEntries
  cases hlv : GetSecurityTag f.tag <;> rw [hlv] at hpair <;>
    simp [List.mem_append, hpair]

theorem zeroStruct_structTy (l : List GoField) :
    (zeroStruct (GoStruct.structTy ⟨l⟩)).fields =
      l.map (fun f => ⟨f.name, f.tag, f.exported, f.ty, f.ty.zero⟩) := by
  unfold zeroStruct GoStruct.structTy
  rw [List.map_map]
  rfl

theorem mem_allBucketNames_of_exported (l : List GoField) (f : GoField)
    (hf : f ∈ l) (hexp : f.exported = true) :
    f.name ∈ allBucketNames (classifyFields l) := by
  have hb : inBucket (GetSecurityTag f.tag) f = true := by
    simp [inBucket, hexp]
  have hmem : f.name ∈ (l.filter (inBucket (GetSecurityTag f.tag))).map GoField.name :=
    List.mem_map_of_mem GoField.name (List.mem_filter.mpr ⟨hf, hb⟩)
  unfold allBucketNames
  rw [classifyFields_secure, classifyFields_plaintext, classifyFields_temporary]
  rw [List.map_append, List.map_append]
  rw [bucket_names_eq, bucket_names_eq, bucket_names_eq]
  cases hlv : GetSecurityTag f.tag <;> rw [hlv] at hmem <;>
    simp [List.mem_append, hmem]

/-- C1: splitting a struct record with `SplitProfileData` and rebuilding
it over the same struct type with `CombineSplitData` (temporary fields
included) restores every exported, settable field to its original value
and leaves unexported fields at their zero value (they are skipped on
both sides).  The hypotheses are Go's own struct invariants: field names
are distinct within one struct, and each field holds a value of its
declared type. -/
theorem split_combine_roundtrip (s : GoStruct)
    (hnodup : (s.fields.map GoField.name).Nodup)
    (hty : ∀ f ∈ s.fields, f.value.ty = f.ty) :
    ∃ sd, SplitProfileData (.struct s) = .ok sd ∧
      CombineSplitData s.structTy sd true =
        ⟨s.fields.map (fun f =>
          if f.exported = true then f else { f with value := f.ty.zero })⟩ := by
  obtain ⟨l⟩ := s
  refine ⟨_, splitProfileData_eq l hnodup, ?_⟩
  unfold CombineSplitData
  simp only [if_true]
  rw [applyDataMap_append, applyDataMap_append, ← List.append_assoc]
  have hz := zeroStruct_structTy l
  have hznames : (((zeroStruct (GoStruct.structTy ⟨l⟩)).fields).map GoField.name).Nodup := by
    rw [hz, List.map_map]
    exact hnodup
  rw [applyDataMap_eq_map _ _ hznames, hz, List.map_map]
  congr 1
  apply List.map_congr_left
  intro f hf
  show updAll (allMapEntries l) ⟨f.name, f.tag, f.exported, f.ty, f.ty.zero⟩ = _
  by_cases hexp : f.exported = true
  · rw [if_pos hexp]
    have hmem : ((⟨f.name, f.tag, f.exported, f.ty, f.ty.zero⟩ : GoField).name, f.value) ∈
        allMapEntries l := mem_allMapEntries_of_exported l f hf hexp
    rw [updAll_of_mem _ _ f.value (allMapEntries_fst_nodup l hnodup) hmem hexp
      (hty f hf)]
  · rw [if_neg hexp]
    simp only [Bool.not_eq_true] at hexp
    exact updAll_of_unexported _ _ hexp

/-- C10: on any struct with distinct field names (guaranteed by Go's
type system), classification places every exported field in exactly one
bucket, `ValidateSecurityClassification` always succeeds on the result,
and hence the duplicate-classification error branch of
`SplitProfileData` is unreachable: the split always succeeds. -/
theorem classify_exactly_one_bucket (s : GoStruct)
    (hnodup : (s.fields.map GoField.name).Nodup) :
    ∃ c, ClassifyProfile (.struct s) = .ok c ∧
      ValidateSecurityClassification c = .ok () ∧
      (∀ f ∈ s.fields, f.exported = true → (allBucketNames c).count f.name = 1) ∧
      ∃ sd, SplitProfileData (.struct s) = .ok sd := by
  obtain ⟨l⟩ := s
  refine ⟨classifyFields l, rfl, validate_classifyFields_ok l hnodup, ?_, _,
    splitProfileData_eq l hnodup⟩
  intro f hf hexp
  exact List.count_eq_one_of_mem (allBucketNames_nodup l hnodup)
    (mem_allBucketNames_of_exported l f hf hexp)

/-- The store-and-retrieve scenario profile of the spec, §8, plus an
unexported field. -/
def exampleProfile : GoStruct :=
  ⟨[⟨"Name", "", true, .str, .vstr "prod"⟩,
    ⟨"APIKey", "secure", true, .str, .vstr "sk-123"⟩,
    ⟨"Session", "temporary", true, .str, .vstr "tmp"⟩,
    ⟨"internal", "secure", false, .int, .vint 7⟩]⟩

/-- Witness for C1: the round-trip theorem applied to a concrete profile
with secure, plaintext, temporary and unexported fields. -/
theorem split_combine_roundtrip_witness :
    ((exampleProfile.fields.map GoField.name).Nodup ∧
      ∀ f ∈ exampleProfile.fields, f.value.ty = f.ty) ∧
    ∃ sd, SplitProfileData (.struct exampleProfile) = .ok sd ∧
      CombineSplitData exampleProfile.structTy sd true =
        ⟨exampleProfile.fields.map (fun f =>
          if f.exported = true then f else { f with value := f.ty.zero })⟩ :=
  ⟨⟨by decide, by decide⟩,
    split_combine_roundtrip exampleProfile (by decide) (by decide)⟩

/-- Witness for C10 at the same concrete profile. -/
theorem classify_exactly_one_bucket_witness :
    (exampleProfile.fields.map GoField.name).Nodup ∧
    ∃ c, ClassifyProfile (.struct exampleProfile) = .ok c ∧
      ValidateSecurityClassification c = .ok () ∧
      (∀ f ∈ exampleProfile.fields, f.exported = true →
        (allBucketNames c).count f.name = 1) ∧
      ∃ sd, SplitProfileData (.struct exampleProfile) = .ok sd :=
  ⟨by decide, classify_exactly_one_bucket exampleProfile (by decide)⟩

/-! ## C3: present-but-invalid security tags -/

/-- A profile whose only field carries a present but unrecognized
security annotation. -/
def invalidTagProfile : GoStruct :=
  ⟨[⟨"Token", "ultra-secret", true, .str, .vstr "x"⟩]⟩

/-- C3 counterexample: `"ultra-secret"` is a present-but-invalid
security annotation (`ParseSecurityLevel` rejects it), yet
`GetSecurityTag` silently falls back to plaintext and `ClassifyProfile`
accepts the struct without an error, bucketing the field as
plaintext — classification does not reject the field. -/
theorem classify_invalid_tag_counterexample :
    ParseSecurityLevel "ultra-secret" = .error .securityLevelInvalid ∧
    GetSecurityTag "ultra-secret" = .plaintext ∧
    ClassifyProfile (.struct invalidTagProfile) =
      .ok ⟨[], [⟨"Token", .plaintext, .vstr "x", .str⟩], []⟩ := by
  refine ⟨by decide, by decide, by decide⟩

/-- C3 amended: for every field whose security annotation is present
but not one of secure/plaintext/temporary, `GetSecurityTag` (and hence
`ClassifyProfile`) silently falls back to plaintext — the same fallback
as for an absent annotation; only the separate
`ValidateFieldSecurityTag` check rejects a present-but-invalid
annotation with an error. -/
theorem invalid_tag_falls_back_to_plaintext (tag : String)
    (hpresent : tag ≠ "")
    (hinvalid : ∃ e, ParseSecurityLevel tag = .error e) :
    GetSecurityTag tag = .plaintext ∧
    ValidateFieldSecurityTag tag = .error .securityValidationFailed ∧
    ∀ (s : GoStruct) (f : GoField), f ∈ s.fields → f.exported = true →
      f.tag = tag → f.info ∈ (classifyFields s.fields).PlaintextFields ∧
        f.info.level = .plaintext := by
  obtain ⟨e, he⟩ := hinvalid
  have htag : GetSecurityTag tag = .plaintext := by
    unfold GetSecurityTag
    rw [if_neg hpresent, he]
    rfl
  refine ⟨htag, ?_, ?_⟩
  · unfold ValidateFieldSecurityTag
    rw [if_neg hpresent, he]
  · intro s f hf hexp hft
    have hb : inBucket .plaintext f = true := by
      simp [inBucket, hexp, hft, htag]
    constructor
    · rw [classifyFields_plaintext]
      exact List.mem_map_of_mem GoField.info (List.mem_filter.mpr ⟨hf, hb⟩)
    · simp [GoField.info, hft, htag]

/-- Witness for the amended C3 at the concrete annotation
`"ultra-secret"` and the concrete one-field profile. -/
theorem invalid_tag_falls_back_to_plaintext_witness :
    ("ultra-secret" ≠ "" ∧ (∃ e, ParseSecurityLevel "ultra-secret" = .error e)) ∧
    (GetSecurityTag "ultra-secret" = .plaintext ∧
      ValidateFieldSecurityTag "ultra-secret" = .error .securityValidationFailed ∧
      ∀ (s : GoStruct) (f : GoField), f ∈ s.fields → f.exported = true →
        f.tag = "ultra-secret" →
        f.info ∈ (classifyFields s.fields).PlaintextFields ∧
          f.info.level = .plaintext) :=
  ⟨⟨by decide, ⟨.securityLevelInvalid, by decide⟩⟩,
    invalid_tag_falls_back_to_plaintext "ultra-secret" (by decide)
      ⟨.securityLevelInvalid, by decide⟩⟩

/-! ## C4: namespace/key validation

Embeds `ValidateNamespaceKey` from the current revision of the store
package (`unnamed/part_010`, regex
`^[a-zA-Z0-9_-]([a-zA-Z0-9_.-]*[a-zA-Z0-9_-])?$`, periods allowed only
in the interior).  Errors follow the sentinel errors of `errors.go`,
with `errors.Join`/wrapping collapsed into one constructor each. -/

/-- Errors of `ValidateNamespaceKey` (`errors.go`): each constructor
records which sentinel errors the Go error wraps. -/
inductive StoreErr where
  | namespaceInvalidEmpty
  | keyInvalidEmpty
  | namespaceInvalidBadCharacters (serviceNamespace : String)
  | keyInvalidBadCharacters (key : String)
  | lengthExceeded (filename : String)
  deriving DecidableEq, Repr

/-- `errors.Is(err, ErrNamespaceInvalid)`. -/
def StoreErr.isNamespaceInvalid : StoreErr → Bool
  | .namespaceInvalidEmpty => true
  | .namespaceInvalidBadCharacters _ => true
  | _ => false

/-- `errors.Is(err, ErrLengthExceeded)`. -/
def StoreErr.isLengthExceeded : StoreErr → Bool
  | .lengthExceeded _ => true
  | _ => false

/-- One character of the regex class `[a-zA-Z0-9_-]`. -/
def baseChar (c : Char) : Bool := c.isAlphanum || c = '_' || c = '-'

/-- One character of the regex class `[a-zA-Z0-9_.-]`. -/
def extChar (c : Char) : Bool := baseChar c || c = '.'

/-- The `([a-zA-Z0-9_.-]*[a-zA-Z0-9_-])` part of the name regex: a
non-empty run of extended characters whose last character is a base
character. -/
def extTail : List Char → Bool
  | [] => false
  | [c] => baseChar c
  | c :: rest => extChar c && extTail rest

/-- The full anchored name regex
`^[a-zA-Z0-9_-]([a-zA-Z0-9_.-]*[a-zA-Z0-9_-])?$`. -/
def validNameChars : List Char → Bool
  | [] => false
  | [c] => baseChar c
  | c :: rest => baseChar c && extTail rest

/-- `maxFileNameLength` (`store.go:33`). -/
def maxFileNameLength : Nat := 255

/-- `ValidateNamespaceKey` (current revision, `unnamed/part_010:298-324`). -/
def ValidateNamespaceKey (serviceNamespace key : String) : Except StoreErr Unit :=
  if serviceNamespace.length = 0 then .error .namespaceInvalidEmpty
  else if key.length = 0 then .error .keyInvalidEmpty
  else if ¬ validNameChars serviceNamespace.data then
    .error (.namespaceInvalidBadCharacters serviceNamespace)
  else if ¬ validNameChars key.data then .error (.keyInvalidBadCharacters key)
  else
    let filename := serviceNamespace ++ "_" ++ key ++ ".ext"
    if filename.length > maxFileNameLength then .error (.lengthExceeded filename)
    else .ok ()

/-- Modelled from the spec: a valid name per §3 — non-empty, only
alphanumerics, underscore, hyphen, plus internal (non-leading,
non-trailing) periods. -/
def specNameOk (s : String) : Prop :=
  s.data ≠ [] ∧ (∀ c ∈ s.data, extChar c = true) ∧
    s.data.head? ≠ some '.' ∧ s.data.getLast? ≠ some '.'

theorem baseChar_iff (c : Char) :
    baseChar c = true ↔ (extChar c = true ∧ c ≠ '.') := by
  constructor
  · intro h
    refine ⟨by simp [extChar, h], ?_⟩
    rintro rfl
    exact absurd h (by decide)
  · rintro ⟨hext, hne⟩
    rcases Bool.or_eq_true_iff.mp hext with hb | hdot
    · exact hb
    · exact absurd (by simpa using hdot) hne

theorem extTail_iff (l : List Char) :
    extTail l = true ↔
      (l ≠ [] ∧ (∀ c ∈ l, extChar c = true) ∧ l.getLast? ≠ some '.') := by
  induction l with
  | nil => simp [extTail]
  | cons c rest ih =>
    cases rest with
    | nil =>
      simp only [extTail, List.getLast?_singleton, List.mem_singleton]
      rw [baseChar_iff]
      constructor
      · rintro ⟨hext, hne⟩
        exact ⟨by simp, by simpa using hext, by simpa using hne⟩
      · rintro ⟨-, hall, hne⟩
        exact ⟨hall c rfl, by simpa using hne⟩
    | cons c₂ rest₂ =>
      rw [show extTail (c :: c₂ :: rest₂) = (extChar c && extTail (c₂ :: rest₂)) from rfl]
      rw [Bool.and_eq_true, ih]
      constructor
      · rintro ⟨hc, -, hall, hlast⟩
        refine ⟨by simp, ?_, ?_⟩
        · intro d hd
          rcases List.mem_cons.mp hd with rfl | hd₂
          · exact hc
          · exact hall d hd₂
        · rwa [List.getLast?_cons_cons]
      · rintro ⟨-, hall, hlast⟩
        rw [List.getLast?_cons_cons] at hlast
        exact ⟨hall c (List.mem_cons_self c _), by simp, fun d hd =>
          hall d (List.mem_cons_of_mem c hd), hlast⟩

theorem validNameChars_iff (l : List Char) :
    validNameChars l = true ↔
      (l ≠ [] ∧ (∀ c ∈ l, extChar c = true) ∧ l.head? ≠ some '.' ∧
        l.getLast? ≠ some '.') := by
  cases l with
  | nil => simp [validNameChars]
  | cons c rest =>
    cases rest with
    | nil =>
      simp only [validNameChars, List.head?_cons, List.getLast?_singleton,
        List.mem_singleton]
      rw [baseChar_iff]
      constructor
      · rintro ⟨hext, hne⟩
        exact ⟨by simp, by simpa using hext, by simpa using hne, by simpa using hne⟩
      · rintro ⟨-, hall, hne, -⟩
        exact ⟨hall c rfl, by simpa using hne⟩
    | cons c₂ rest₂ =>
      rw [show validNameChars (c :: c₂ :: rest₂) =
        (baseChar c && extTail (c₂ :: rest₂)) from rfl]
      rw [Bool.and_eq_true, baseChar_iff, extTail_iff]
      constructor
      · rintro ⟨⟨hc, hcne⟩, -, hall, hlast⟩
        refine ⟨by simp, ?_, by simpa using hcne, ?_⟩
        · intro d hd
          rcases List.mem_cons.mp hd with rfl | hd₂
          · exact hc
          · exact hall d hd₂
        · rwa [List.getLast?_cons_cons]
      · rintro ⟨-, hall, hhead, hlast⟩
        rw [List.getLast?_cons_cons] at hlast
        exact ⟨⟨hall c (List.mem_cons_self c _), by simpa using hhead⟩, by simp,
          fun d hd => hall d (List.mem_cons_of_mem c hd), hlast⟩

/-- A 251-character namespace: alphanumeric, but the constructed
filename `<namespace>_<key>.ext` is 259 characters long. -/
def longNamespace : String := String.mk (List.replicate 251 'a')

set_option maxRecDepth 4000 in
/-- C4: `ValidateNamespaceKey` succeeds exactly on non-empty
namespace/key strings made of alphanumerics, underscore and hyphen plus
internal periods whose constructed on-disk filename stays within 255
characters; and the four concrete cases named by the spec behave as
stated. -/
theorem ValidateNamespaceKey_spec :
    (∀ serviceNamespace key : String,
      ValidateNamespaceKey serviceNamespace key = .ok () ↔
        (specNameOk serviceNamespace ∧ specNameOk key ∧
          (serviceNamespace ++ "_" ++ key ++ ".ext").length ≤ maxFileNameLength)) ∧
    (∃ e, ValidateNamespaceKey "" "key" = .error e ∧ e.isNamespaceInvalid = true) ∧
    ValidateNamespaceKey "a." "key" = .error (.namespaceInvalidBadCharacters "a.") ∧
    ValidateNamespaceKey "ok-name" "ok_key" = .ok () ∧
    (∃ e, ValidateNamespaceKey longNamespace "key" = .error e ∧
      e.isLengthExceeded = true) := by
  refine ⟨?_, ⟨.namespaceInvalidEmpty, by decide, by decide⟩, by decide, by decide,
    ⟨.lengthExceeded (longNamespace ++ "_" ++ "key" ++ ".ext"), by decide, by decide⟩⟩
  intro serviceNamespace key
  unfold ValidateNamespaceKey
  constructor
  · intro h
    by_cases h₁ : serviceNamespace.length = 0
    · rw [if_pos h₁] at h; exact absurd h (by simp)
    rw [if_neg h₁] at h
    by_cases h₂ : key.length = 0
    · rw [if_pos h₂] at h; exact absurd h (by simp)
    rw [if_neg h₂] at h
    by_cases h₃ : validNameChars serviceNamespace.data
    swap
    · rw [if_pos (by simpa using h₃)] at h; exact absurd h (by simp)
    rw [if_neg (by simpa using h₃)] at h
    by_cases h₄ : validNameChars key.data
    swap
    · rw [if_pos (by simpa using h₄)] at h; exact absurd h (by simp)
    rw [if_neg (by simpa using h₄)] at h
    refine ⟨?_, ?_, ?_⟩
    · have := (validNameChars_iff serviceNamespace.data).mp h₃
      exact ⟨this.1, this.2.1, this.2.2.1, this.2.2.2⟩
    · have := (validNameChars_iff key.data).mp h₄
      exact ⟨this.1, this.2.1, this.2.2.1, this.2.2.2⟩
    · by_contra hlen
      rw [if_pos (by omega)] at h
      exact absurd h (by simp)
  · rintro ⟨hns, hkey, hlen⟩
    have h₃ : validNameChars serviceNamespace.data = true :=
      (validNameChars_iff serviceNamespace.data).mpr ⟨hns.1, hns.2.1, hns.2.2.1, hns.2.2.2⟩
    have h₄ : validNameChars key.data = true :=
      (validNameChars_iff key.data).mpr ⟨hkey.1, hkey.2.1, hkey.2.2.1, hkey.2.2.2⟩
    have h₁ : serviceNamespace.length ≠ 0 := fun hc =>
      hns.1 (List.length_eq_zero.mp hc)
    have h₂ : key.length ≠ 0 := fun hc =>
      hkey.1 (List.length_eq_zero.mp hc)
    rw [if_neg h₁, if_neg h₂, if_neg (by simp [h₃]), if_neg (by simp [h₄]),
      if_neg (by omega)]

/-! ## C5: envelope-crypto decryption (`decryptData`)

`decryptData` (`unnamed/part_010:212-227`, identical in `part_009`)
builds an AES-GCM AEAD from the key and splits the leading nonce off
the blob.  The AES-GCM primitive itself (`aesGCM.Open`) is external
library code, modelled as an explicit function returning `none` on an
authentication-tag failure. -/

/-- The nonce size of `cipher.NewGCM` (the standard 12-byte GCM nonce). -/
def gcmNonceSize : Nat := 12

/-- `aes.NewCipher` accepts exactly 16-, 24- or 32-byte keys. -/
def validAESKeyLength (n : Nat) : Bool := n = 16 || n = 24 || n = 32

/-- `decryptData`: fail on an invalid key size (`aes.NewCipher`); fail
with the joined `ErrStoredValueInvalid`/`ErrEncryptedDataInvalid`
(represented by `.encryptedDataInvalid`) when the blob is shorter than
one nonce; otherwise split `nonce || ciphertext` and run the
authenticated open, failing with an authentication error when the tag
check fails. -/
def decryptData (gcmOpen : List Nat → List Nat → Option (List Nat))
    (key encryptedData : List Nat) : Except SecErr (List Nat) :=
  if ¬ validAESKeyLength key.length then .error .keySizeInvalid
  else if encryptedData.length < gcmNonceSize then .error .encryptedDataInvalid
  else
    match gcmOpen (encryptedData.take gcmNonceSize)
        (encryptedData.drop gcmNonceSize) with
    | none => .error .authenticationFailed
    | some plaintext => .ok plaintext

/-- C5: for every valid AES key, a blob shorter than the nonce size is
rejected with the data-invalid error and no plaintext; for a blob of at
least nonce size the leading nonce-sized prefix is split off, a failing
tag check yields an authentication error, and a successful result is
always exactly an authenticated open of the split blob — unauthenticated
plaintext is never returned. -/
theorem decryptData_spec (gcmOpen : List Nat → List Nat → Option (List Nat))
    (key encryptedData : List Nat)
    (hkey : validAESKeyLength key.length = true) :
    (encryptedData.length < gcmNonceSize →
      decryptData gcmOpen key encryptedData = .error .encryptedDataInvalid) ∧
    (gcmNonceSize ≤ encryptedData.length →
      gcmOpen (encryptedData.take gcmNonceSize)
          (encryptedData.drop gcmNonceSize) = none →
      decryptData gcmOpen key encryptedData = .error .authenticationFailed) ∧
    (∀ plaintext, decryptData gcmOpen key encryptedData = .ok plaintext →
      gcmOpen (encryptedData.take gcmNonceSize)
          (encryptedData.drop gcmNonceSize) = some plaintext) := by
  unfold decryptData
  rw [if_neg (by simp [hkey])]
  refine ⟨fun hshort => by rw [if_pos hshort], fun hlong hauth => ?_, ?_⟩
  · rw [if_neg (by omega), hauth]
  · intro plaintext h
    by_cases hshort : encryptedData.length < gcmNonceSize
    · rw [if_pos hshort] at h
      exact absurd h (by simp)
    rw [if_neg hshort] at h
    cases hop : gcmOpen (encryptedData.take gcmNonceSize)
        (encryptedData.drop gcmNonceSize) with
    | none => rw [hop] at h; exact absurd h (by simp)
    | some pt => rw [hop] at h; cases h; rfl

/-- Witness for C5: a 32-byte zero key and an AEAD whose tag check
always fails. -/
theorem decryptData_spec_witness :
    validAESKeyLength (List.replicate 32 0).length = true ∧
    (([1, 2, 3] : List Nat).length < gcmNonceSize →
      decryptData (fun _ _ => none) (List.replicate 32 0) [1, 2, 3] =
        .error .encryptedDataInvalid) ∧
    (gcmNonceSize ≤ ([1, 2, 3] : List Nat).length →
      (fun (_ _ : List Nat) => (none : Option (List Nat)))
          (([1, 2, 3] : List Nat).take gcmNonceSize)
          (([1, 2, 3] : List Nat).drop gcmNonceSize) = none →
      decryptData (fun _ _ => none) (List.replicate 32 0) [1, 2, 3] =
        .error .authenticationFailed) ∧
    (∀ plaintext,
      decryptData (fun _ _ => none) (List.replicate 32 0) [1, 2, 3] = .ok plaintext →
      (fun (_ _ : List Nat) => (none : Option (List Nat)))
          (([1, 2, 3] : List Nat).take gcmNonceSize)
          (([1, 2, 3] : List Nat).drop gcmNonceSize) = some plaintext) :=
  ⟨by decide, decryptData_spec (fun _ _ => none) (List.replicate 32 0) [1, 2, 3]
    (by decide)⟩

/-! ## C6: keyring availability probe -/

/-- Outcomes of the three external keyring calls made by the
availability probe (`keyring.Set`, `keyring.Get`, `keyring.Delete` on
the disposable probe key). -/
structure KeyringProbeEnv where
  setOk : Bool
  getOk : Bool
  deleteOk : Bool
  deriving DecidableEq, Repr

/-- `isKeyringAvailable` (`unnamed/part_008:430-448`): try a `Set`,
return false on failure; try a `Get`, return false on failure; then run
the cleanup `Delete` but discard its error (`_ = keyring.Delete(...)`)
and return true. -/
def isKeyringAvailable (env : KeyringProbeEnv) : Bool :=
  if ¬ env.setOk then false
  else if ¬ env.getOk then false
  else true

/-- C6 counterexample: a keyring on which the probe's set and get
succeed but the delete fails is still reported as available — a failure
of the third step does not mean "unavailable", contrary to the claim. -/
theorem isKeyringAvailable_delete_failure_counterexample :
    isKeyringAvailable ⟨true, true, false⟩ = true ∧
    (⟨true, true, false⟩ : KeyringProbeEnv).deleteOk = false := by
  decide

/-- C6 amended: the probe reports available exactly when the set and
the get of the disposable probe key succeed; the cleanup delete is
attempted but its result is discarded. -/
theorem isKeyringAvailable_eq_set_and_get (env : KeyringProbeEnv) :
    isKeyringAvailable env = (env.setOk && env.getOk) := by
  unfold isKeyringAvailable
  cases hs : env.setOk <;> cases hg : env.getOk <;> simp

/-! ## C9: in-memory backend -/

/-- JSON rendering of a field value (`encoding/json`): total on this
value universe. -/
def GoVal.toJson : GoVal → String
  | .vstr s => "\"" ++ s ++ "\""
  | .vint n => toString n
  | .vbool b => cond b "true" "false"

/-- `json.Marshal` on stored values: total on this value universe. -/
def jsonMarshal : GoAny → String
  | .prim p => p.toJson
  | .struct s =>
    "\x7b" ++
      String.intercalate ","
        (s.fields.map (fun f => "\"" ++ f.name ++ "\":" ++ f.value.toJson)) ++
      "\x7d"

/-- `MemoryMetadata` (`storeMemory.go:17-26`), timestamp strings
supplied by the caller's clock. -/
structure MemoryMetadata where
  profileName : String
  createdAt : String
  lastModified : String
  deriving DecidableEq, Repr

/-- `memoryStore` (`storeMemory.go:8-14`). -/
structure MemoryStore where
  serviceNamespace : String
  key : String
  memory : List (String × GoAny)
  metadata : List (String × MemoryMetadata)
  deriving DecidableEq, Repr

/-- Go map assignment `m[k] = v` on an association list. -/
def assocSet {α : Type} (l : List (String × α)) (k : String) (v : α) :
    List (String × α) :=
  match l with
  | [] => [(k, v)]
  | (k', v') :: rest =>
    if k' = k then (k, v) :: rest else (k', v') :: assocSet rest k v

/-- `NewMemoryStore` (`storeMemory.go:30-43`): validate the
namespace/key, then start with empty maps. -/
def NewMemoryStore (serviceNamespace key : String) :
    Except StoreErr MemoryStore :=
  match ValidateNamespaceKey serviceNamespace key with
  | .error e => .error e
  | .ok _ => .ok ⟨serviceNamespace, key, [], []⟩

/-- `memoryStore.Exists` (`storeMemory.go:45-49`). -/
def MemoryStore.Exists (m : MemoryStore) : Bool :=
  (m.memory.lookup m.key).isSome

/-- `memoryStore.Get` (`storeMemory.go:51-59`): an absent key returns
`(nil, nil)` — success carrying no bytes, modelled as `.ok none`; a
present value is JSON-marshalled. -/
def MemoryStore.Get (m : MemoryStore) : Except StoreErr (Option String) :=
  match m.memory.lookup m.key with
  | none => .ok none
  | some v => .ok (some (jsonMarshal v))

/-- `memoryStore.Set` (`storeMemory.go:61-89`): store the value and
create or touch the metadata entry. -/
def MemoryStore.Set (m : MemoryStore) (value : GoAny) (now : String) :
    MemoryStore :=
  let memory := assocSet m.memory m.key value
  let metadata :=
    match m.metadata.lookup m.key with
    | some existing =>
      assocSet m.metadata m.key { existing with lastModified := now }
    | none => assocSet m.metadata m.key ⟨m.key, now, now⟩
  { m with memory := memory, metadata := metadata }

/-- `memoryStore.Delete` (`storeMemory.go:91-100`). -/
def MemoryStore.Delete (m : MemoryStore) : MemoryStore :=
  { m with memory := m.memory.filter (fun p => p.1 ≠ m.key),
           metadata := m.metadata.filter (fun p => p.1 ≠ m.key) }

/-- C9 counterexample: a freshly constructed in-memory store returns
`.ok none` — a successful result with no bytes, not a not-found
error — when `Get` is called before any `Set`; no `NotFoundError` is
produced anywhere in the backend. -/
theorem memoryStore_get_unset_counterexample :
    ∃ m, NewMemoryStore "app" "profile" = .ok m ∧
      m.Get = .ok none ∧ m.Exists = false := by
  refine ⟨⟨"app", "profile", [], []⟩, by decide, rfl, rfl⟩

/-- C9 amended: on the in-memory backend, `Get` for a key holding no
value succeeds with nil bytes (`nil, nil` in Go) rather than returning
any error; absence is observable only through `Exists() = false`. -/
theorem memoryStore_get_absent (m : MemoryStore)
    (h : m.memory.lookup m.key = none) :
    m.Get = .ok none ∧ m.Exists = false := by
  constructor
  · unfold MemoryStore.Get
    rw [h]
  · unfold MemoryStore.Exists
    rw [h]
    rfl

/-- Witness for the amended C9 at a freshly constructed store. -/
theorem memoryStore_get_absent_witness :
    ((⟨"app", "profile", [], []⟩ : MemoryStore).memory.lookup "profile" = none) ∧
    ((⟨"app", "profile", [], []⟩ : MemoryStore).Get = .ok none ∧
      (⟨"app", "profile", [], []⟩ : MemoryStore).Exists = false) :=
  ⟨by decide, memoryStore_get_absent ⟨"app", "profile", [], []⟩ (by decide)⟩

/-! ## C8: sensitive-name compliance pass -/

/-- `sensitiveKeywords` (`security.go:619` and `security.go:678`). -/
def sensitiveKeywords : List String :=
  ["password", "secret", "key", "token", "credential", "auth"]

/-- `strings.Contains` on character lists. -/
def containsSubstr : List Char → List Char → Bool
  | [], needle => needle.isEmpty
  | c :: rest, needle => needle.isPrefixOf (c :: rest) || containsSubstr rest needle

/-- `strings.Contains(s, sub)`. -/
def stringContains (s sub : String) : Bool := containsSubstr s.data sub.data

/-- The inner keyword loop of `CheckSecurityCompliance`
(`security.go:621-629`): a plaintext-bucket field trips the check when
its lower-cased name contains a sensitive keyword and its level is not
secure. -/
def fieldHasSensitiveName (f : FieldSecurityInfo) : Bool :=
  sensitiveKeywords.any (fun keyword =>
    stringContains (toLowerString f.name) keyword &&
      !(decide (f.level = SecurityLevel.secure)))

/-- `CheckSecurityCompliance` (`security.go:608-632`): classify, demand
a secure field when asked to, then return a hard
`ErrSecurityValidationFailed` for the first plaintext field whose name
contains a sensitive keyword. -/
def CheckSecurityCompliance (profile : GoAny) (requireSecureFields : Bool) :
    Except SecErr Unit :=
  match ClassifyProfile profile with
  | .error _ => .error .securityValidationFailed
  | .ok classification =>
    if requireSecureFields && classification.SecureFields.isEmpty then
      .error .securityValidationFailed
    else if classification.PlaintextFields.any fieldHasSensitiveName then
      .error .securityValidationFailed
    else .ok ()

/-- `SecurityReport` (`security.go:654-660`); the error strings of the
Go report are represented by the error values themselves. -/
structure SecurityReport where
  secureFieldCount : Nat
  plaintextFieldCount : Nat
  temporaryFieldCount : Nat
  securityWarnings : List String
  securityErrors : List SecErr
  deriving DecidableEq, Repr

/-- The warning text of `security.go:684-685` (`fmt.Sprintf`). -/
def sensitiveWarning (fieldName keyword : String) : String :=
  "Field " ++ fieldName ++ " contains sensitive keyword " ++ keyword ++
    " but is stored in plaintext"

/-- The warning of `security.go:691-693`. -/
def noSecureFieldsWarning : String :=
  "Profile contains no secure fields - all data will be stored in plaintext"

/-- The keyword loop of `GenerateSecurityReport` for one plaintext
field (`security.go:680-688`): one warning per matching keyword, in
keyword order. -/
def fieldSensitiveWarnings (f : FieldSecurityInfo) : List String :=
  (sensitiveKeywords.filter
      (fun keyword => stringContains (toLowerString f.name) keyword)).map
    (fun keyword => sensitiveWarning f.name keyword)

/-- `GenerateSecurityReport` (`security.go:663-702`). -/
def GenerateSecurityReport (profile : GoAny) : Except SecErr SecurityReport :=
  match ClassifyProfile profile with
  | .error _ => .error .securityValidationFailed
  | .ok c =>
    let warnings := (c.PlaintextFields.map fieldSensitiveWarnings).flatten ++
      (if c.SecureFields.isEmpty then [noSecureFieldsWarning] else [])
    let errors :=
      match ValidateSecurityClassification c with
      | .error e => [e]
      | .ok _ => []
    .ok ⟨c.SecureFields.length, c.PlaintextFields.length,
      c.TemporaryFields.length, warnings, errors⟩

/-- A profile with a plaintext field named `Password`. -/
def passwordProfile : GoStruct :=
  ⟨[⟨"Password", "", true, .str, .vstr "hunter2"⟩]⟩

/-- C8 counterexample: for a plaintext field named `Password`,
`GenerateSecurityReport` surfaces a warning, but `CheckSecurityCompliance`
returns a hard `ErrSecurityValidationFailed` — the finding is not
"only a warning, never a hard error". -/
theorem compliance_hard_error_counterexample :
    CheckSecurityCompliance (.struct passwordProfile) false =
      .error .securityValidationFailed ∧
    GenerateSecurityReport (.struct passwordProfile) =
      .ok ⟨0, 1, 0, [sensitiveWarning "Password" "password",
        noSecureFieldsWarning], []⟩ := by
  constructor
  · decide
  · decide

/-- A field of the plaintext bucket carries level plaintext. -/
theorem level_of_mem_plaintext (l : List GoField) (f : FieldSecurityInfo)
    (hf : f ∈ (classifyFields l).PlaintextFields) :
    f.level = .plaintext := by
  rw [classifyFields_plaintext] at hf
  obtain ⟨g, hg, rfl⟩ := List.mem_map.mp hf
  have hb := (List.mem_filter.mp hg).2
  simp only [inBucket, Bool.and_eq_true, decide_eq_true_eq] at hb
  simp [GoField.info, hb.2]

/-- C8 amended: a plaintext-classified field whose name contains a
sensitive keyword is surfaced as a warning by `GenerateSecurityReport`;
however `CheckSecurityCompliance` additionally returns it as a hard
error (for every value of `requireSecureFields`), so the finding is not
warning-only. -/
theorem sensitive_plaintext_warning_and_hard_error (s : GoStruct)
    (f : FieldSecurityInfo) (keyword : String)
    (hf : f ∈ (classifyFields s.fields).PlaintextFields)
    (hk : keyword ∈ sensitiveKeywords)
    (hsub : stringContains (toLowerString f.name) keyword = true) :
    (∃ r, GenerateSecurityReport (.struct s) = .ok r ∧
      sensitiveWarning f.name keyword ∈ r.securityWarnings) ∧
    (∀ requireSecureFields : Bool,
      CheckSecurityCompliance (.struct s) requireSecureFields =
        .error .securityValidationFailed) := by
  have hlevel := level_of_mem_plaintext s.fields f hf
  constructor
  · refine ⟨_, rfl, ?_⟩
    apply List.mem_append_left
    apply List.mem_flatten.mpr
    refine ⟨fieldSensitiveWarnings f, List.mem_map_of_mem fieldSensitiveWarnings hf, ?_⟩
    unfold fieldSensitiveWarnings
    exact List.mem_map_of_mem _ (List.mem_filter.mpr ⟨hk, hsub⟩)
  · intro requireSecureFields
    have hany : (classifyFields s.fields).PlaintextFields.any fieldHasSensitiveName = true := by
      apply List.any_eq_true.mpr
      refine ⟨f, hf, ?_⟩
      apply List.any_eq_true.mpr
      refine ⟨keyword, hk, ?_⟩
      simp [hsub, hlevel]
    unfold CheckSecurityCompliance
    simp only [ClassifyProfile]
    by_cases hreq : (requireSecureFields &&
        (classifyFields s.fields).SecureFields.isEmpty) = true
    · rw [if_pos hreq]
    · rw [if_neg hreq, if_pos hany]

/-- Witness for the amended C8 at the `Password` profile and the
keyword `password`. -/
theorem sensitive_plaintext_warning_and_hard_error_witness :
    ((⟨"Password", .plaintext, .vstr "hunter2", .str⟩ : FieldSecurityInfo) ∈
        (classifyFields passwordProfile.fields).PlaintextFields ∧
      "password" ∈ sensitiveKeywords ∧
      stringContains (toLowerString "Password") "password" = true) ∧
    ((∃ r, GenerateSecurityReport (.struct passwordProfile) = .ok r ∧
        sensitiveWarning "Password" "password" ∈ r.securityWarnings) ∧
      (∀ requireSecureFields : Bool,
        CheckSecurityCompliance (.struct passwordProfile) requireSecureFields =
          .error .securityValidationFailed)) :=
  ⟨⟨by decide, by decide, by decide⟩,
    sensitive_plaintext_warning_and_hard_error passwordProfile
      ⟨"Password", .plaintext, .vstr "hunter2", .str⟩ "password"
      (by decide) (by decide) (by decide)⟩

/-! ## Hybrid store (`unnamed/part_008`): `Set` (C2) and `Delete` (C7)

The hybrid store's external effects — the OS keyring, `crypto/rand`,
the AES-GCM seal and the filesystem — are modelled by an explicit
environment; the three on-disk artifacts and the in-memory temporary
map are the store state. -/

/-- `SecurityMode` (`security.go:23-30`). -/
inductive SecurityMode where
  | keyring
  | insecure
  deriving DecidableEq, Repr

/-- Outcome classes of `keyring.Get` (`keyring.ErrNotFound` versus any
other failure). -/
inductive KeyringErr where
  | notFound
  | other
  deriving DecidableEq, Repr

/-- The external world as seen by one hybrid-store operation. -/
structure HybridEnv where
  keyringGetKey : Except KeyringErr String
  randOk : Bool
  randBytes : List Nat
  keyringSetOk : Bool
  nonce : List Nat
  gcmSeal : List Nat → List Nat → List Nat
  writeSecureOk : Bool
  writePlaintextOk : Bool
  writeMetadataOk : Bool
  removeSecureOk : Bool
  removePlaintextOk : Bool
  removeMetadataOk : Bool
  now : String
  appVersion : String

/-- `SecurityConfig` (`security.go:33-39`). -/
structure SecurityConfig where
  mode : SecurityMode
  warnOnInsecure : Bool
  storeDirectory : String
  serviceNamespace : String
  profileKey : String
  deriving DecidableEq, Repr

/-- `HybridMetadata` (`unnamed/part_008:49-63`). -/
structure HybridMetadata where
  profileName : String
  createdAt : String
  lastModified : String
  securityMode : SecurityMode
  hasSecureData : Bool
  hasPlaintextData : Bool
  encryptionAlg : Option String
  version : String
  goOSProfilesVersion : String
  appVersion : String
  profileFormatVersion : String
  deriving DecidableEq, Repr

/-- `HybridStore` (`unnamed/part_008:35-46`) together with the three
on-disk artifacts it addresses: `none` models a file that does not
exist (`os.Stat` fails), `some` holds the file's contents. -/
structure HybridStore where
  config : SecurityConfig
  namespaceVersionURN : String
  secureFile : Option (List Nat)
  plaintextFile : Option String
  metadataFile : Option HybridMetadata
  temporaryData : List (String × GoVal)
  deriving DecidableEq, Repr

/-- Go string-to-bytes conversion (`[]byte(s)`), code points standing
in for bytes. -/
def strToBytes (s : String) : List Nat := s.data.map Char.toNat

/-- The JSON body shared by `SerializeSecureData` and
`SerializePlaintextData` (`security.go:442-467`): an empty map
serializes to the canonical empty object. -/
def serializeDataMap (m : List (String × GoVal)) : String :=
  if m.isEmpty then "\x7b\x7d"
  else
    "\x7b" ++
      String.intercalate ","
        (m.map (fun p => "\"" ++ p.1 ++ "\":" ++ p.2.toJson)) ++
      "\x7d"

/-- `SerializeSecureData` (`security.go:442-453`). -/
def SerializeSecureData (sd : SplitData) : String := serializeDataMap sd.SecureData

/-- `SerializePlaintextData` (`security.go:456-467`). -/
def SerializePlaintextData (sd : SplitData) : String :=
  serializeDataMap sd.PlaintextData

/-- `encryptData` (`unnamed/part_010:189-209`): key-size check
(`aes.NewCipher`), fresh random nonce, authenticated seal, and the
`nonce || ciphertext` wire format. -/
def encryptData (env : HybridEnv) (key data : List Nat) :
    Except SecErr (List Nat) :=
  if ¬ validAESKeyLength key.length then .error .keySizeInvalid
  else if ¬ env.randOk then .error .randFailed
  else .ok (env.nonce ++ env.gcmSeal env.nonce data)

/-- `HybridStore.getEncryptionKey` (`unnamed/part_008:372-391`): fetch
from the keyring; only `ErrNotFound` triggers generation of a fresh
32-byte key which is stored back; any other fetch failure propagates. -/
def getEncryptionKey (env : HybridEnv) : Except SecErr (List Nat) :=
  match env.keyringGetKey with
  | .error .notFound =>
    if ¬ env.randOk then .error .randFailed
    else if ¬ env.keyringSetOk then .error .keyringSetFailed
    else .ok env.randBytes
  | .error .other => .error .keyringGetFailed
  | .ok keyStr => .ok (strToBytes keyStr)

/-- `HybridStore.setSecureData` (`unnamed/part_008:336-357`): refuse in
insecure mode before any serialization, key fetch, encryption or
write. -/
def HybridStore.setSecureData (h : HybridStore) (env : HybridEnv)
    (splitData : SplitData) : Except SecErr HybridStore :=
  if h.config.mode = .insecure then .error .securityModeUnavailable
  else
    let data := SerializeSecureData splitData
    match getEncryptionKey env with
    | .error e => .error e
    | .ok key =>
      match encryptData env key (strToBytes data) with
      | .error e => .error e
      | .ok encryptedData =>
        if env.writeSecureOk then .ok { h with secureFile := some encryptedData }
        else .error .writeFailed

/-- `HybridStore.setPlaintextData` (`unnamed/part_008:363-370`). -/
def HybridStore.setPlaintextData (h : HybridStore) (env : HybridEnv)
    (splitData : SplitData) : Except SecErr HybridStore :=
  if env.writePlaintextOk then
    .ok { h with plaintextFile := some (SerializePlaintextData splitData) }
  else .error .writeFailed

/-- `HybridStore.saveMetadata` (`unnamed/part_008:393-423`). -/
def HybridStore.saveMetadata (h : HybridStore) (env : HybridEnv)
    (splitData : SplitData) : Except SecErr HybridStore :=
  let metadata : HybridMetadata :=
    { profileName := h.config.profileKey
      createdAt := env.now
      lastModified := env.now
      securityMode := h.config.mode
      hasSecureData := !splitData.SecureData.isEmpty
      hasPlaintextData := !splitData.PlaintextData.isEmpty
      encryptionAlg :=
        if !splitData.SecureData.isEmpty && decide (h.config.mode = .keyring)
        then some "AES-256-GCM" else none
      version := h.namespaceVersionURN
      goOSProfilesVersion := "1.0.0"
      appVersion := env.appVersion
      profileFormatVersion := "2.0" }
  if env.writeMetadataOk then .ok { h with metadataFile := some metadata }
  else .error .writeFailed

/-- `HybridStore.Set` (`unnamed/part_008:224-253`): split; write the
secure artifact when secure data is present; write the plaintext
artifact when plaintext data is present; replace the temporary map
wholesale; write metadata last.  The returned state is the store as the
failed call leaves it. -/
def HybridStore.Set (h : HybridStore) (env : HybridEnv) (value : GoAny) :
    Except SecErr Unit × HybridStore :=
  match SplitProfileData value with
  | .error e => (.error e, h)
  | .ok splitData =>
    match (if !splitData.SecureData.isEmpty
           then h.setSecureData env splitData else .ok h) with
    | .error e => (.error e, h)
    | .ok h1 =>
      match (if !splitData.PlaintextData.isEmpty
             then h1.setPlaintextData env splitData else .ok h1) with
      | .error e => (.error e, h1)
      | .ok h2 =>
        let h3 := { h2 with temporaryData := splitData.TemporaryData }
        match h3.saveMetadata env splitData with
        | .error e => (.error e, h3)
        | .ok h4 => (.ok (), h4)

/-- Which artifact a `Delete` failure came from (`fmt.Errorf` wrappers
of `unnamed/part_008:262,269,277`). -/
inductive DeleteFailure where
  | secureFile
  | plaintextFile
  | metadataFile
  deriving DecidableEq, Repr

/-- `HybridStore.secureFileExists` (`unnamed/part_008:308-311`). -/
def HybridStore.secureFileExists (h : HybridStore) : Bool := h.secureFile.isSome

/-- `HybridStore.plaintextFileExists` (`unnamed/part_008:313-316`). -/
def HybridStore.plaintextFileExists (h : HybridStore) : Bool :=
  h.plaintextFile.isSome

/-- `os.Stat` on the metadata path (`unnamed/part_008:275`). -/
def HybridStore.metadataFileExists (h : HybridStore) : Bool :=
  h.metadataFile.isSome

/-- `HybridStore.Delete` (`unnamed/part_008:256-289`): three sequential
removal blocks, each guarded by its own existence check and appending
its own failure to the error list; then the temporary map is cleared
unconditionally and the collected errors are joined. -/
def HybridStore.Delete (h : HybridStore) (env : HybridEnv) :
    Except (List DeleteFailure) Unit × HybridStore :=
  let errs0 : List DeleteFailure := []
  let step1 :=
    if h.secureFileExists then
      if env.removeSecureOk then (errs0, { h with secureFile := none })
      else (errs0 ++ [DeleteFailure.secureFile], h)
    else (errs0, h)
  let step2 :=
    if step1.2.plaintextFileExists then
      if env.removePlaintextOk then (step1.1, { step1.2 with plaintextFile := none })
      else (step1.1 ++ [DeleteFailure.plaintextFile], step1.2)
    else (step1.1, step1.2)
  let step3 :=
    if step2.2.metadataFileExists then
      if env.removeMetadataOk then (step2.1, { step2.2 with metadataFile := none })
      else (step2.1 ++ [DeleteFailure.metadataFile], step2.2)
    else (step2.1, step2.2)
  let final := { step3.2 with temporaryData := [] }
  (if step3.1.isEmpty then .ok () else .error step3.1, final)

/-- C2: if the split of the record has non-empty secure data and the
store is in insecure mode, `Set` fails with the
security-mode-unavailable error and leaves the store — all three
artifacts and the temporary map — exactly as it was: nothing is
persisted. -/
theorem hybridSet_insecure_fails (h : HybridStore) (env : HybridEnv)
    (value : GoAny) (splitData : SplitData)
    (hmode : h.config.mode = .insecure)
    (hsplit : SplitProfileData value = .ok splitData)
    (hsecure : splitData.SecureData ≠ []) :
    h.Set env value = (.error .securityModeUnavailable, h) := by
  have hne : (!splitData.SecureData.isEmpty) = true := by
    simp [List.isEmpty_iff, hsecure]
  have hstep : (if (!splitData.SecureData.isEmpty) = true
      then h.setSecureData env splitData else .ok h) =
      .error .securityModeUnavailable := by
    rw [if_pos hne]
    unfold HybridStore.setSecureData
    rw [if_pos hmode]
  unfold HybridStore.Set
  rw [hsplit]
  dsimp only
  rw [hstep]

/-- A concrete hybrid store in insecure mode with no artifacts. -/
def insecureStore : HybridStore :=
  { config := ⟨.insecure, true, "/tmp/profiles", "app", "profile"⟩
    namespaceVersionURN := "urn.goosprofiles.app.profile.v1"
    secureFile := none
    plaintextFile := none
    metadataFile := none
    temporaryData := [] }

/-- A concrete benign environment. -/
def sampleEnv : HybridEnv :=
  { keyringGetKey := .error .notFound
    randOk := true
    randBytes := List.replicate 32 0
    keyringSetOk := true
    nonce := List.replicate 12 0
    gcmSeal := fun _ data => data
    writeSecureOk := true
    writePlaintextOk := true
    writeMetadataOk := true
    removeSecureOk := true
    removePlaintextOk := true
    removeMetadataOk := true
    now := "2024-01-01T00:00:00Z"
    appVersion := "" }

/-- Witness for C2: the scenario profile (whose `APIKey` field is
secure-classified) against the insecure-mode store. -/
theorem hybridSet_insecure_fails_witness :
    (insecureStore.config.mode = .insecure ∧
      SplitProfileData (.struct exampleProfile) =
        .ok ⟨[("APIKey", .vstr "sk-123")], [("Name", .vstr "prod")],
          [("Session", .vstr "tmp")]⟩ ∧
      ([("APIKey", GoVal.vstr "sk-123")] : List (String × GoVal)) ≠ []) ∧
    insecureStore.Set sampleEnv (.struct exampleProfile) =
      (.error .securityModeUnavailable, insecureStore) :=
  ⟨⟨by decide, by decide, by decide⟩,
    hybridSet_insecure_fails insecureStore sampleEnv (.struct exampleProfile)
      ⟨[("APIKey", .vstr "sk-123")], [("Name", .vstr "prod")],
        [("Session", .vstr "tmp")]⟩ (by decide) (by decide) (by decide)⟩

/-- C7: `Delete` clears the in-memory temporary map unconditionally;
each artifact's removal is attempted independently — its final presence
depends only on its own existence and its own removal outcome,
regardless of the other artifacts' failures — and the call returns the
join (here: the concatenation) of exactly the failures encountered
rather than stopping at the first one. -/
theorem hybridDelete_spec (h : HybridStore) (env : HybridEnv) :
    (h.Delete env).2.temporaryData = [] ∧
    (h.Delete env).2.secureFile =
      (if h.secureFile.isSome ∧ env.removeSecureOk = true then none
       else h.secureFile) ∧
    (h.Delete env).2.plaintextFile =
      (if h.plaintextFile.isSome ∧ env.removePlaintextOk = true then none
       else h.plaintextFile) ∧
    (h.Delete env).2.metadataFile =
      (if h.metadataFile.isSome ∧ env.removeMetadataOk = true then none
       else h.metadataFile) ∧
    (h.Delete env).1 =
      (if ((if h.secureFile.isSome ∧ env.removeSecureOk = false
            then [DeleteFailure.secureFile] else []) ++
          (if h.plaintextFile.isSome ∧ env.removePlaintextOk = false
            then [DeleteFailure.plaintextFile] else []) ++
          (if h.metadataFile.isSome ∧ env.removeMetadataOk = false
            then [DeleteFailure.metadataFile] else [])).isEmpty
       then .ok ()
       else .error
        ((if h.secureFile.isSome ∧ env.removeSecureOk = false
          then [DeleteFailure.secureFile] else []) ++
        (if h.plaintextFile.isSome ∧ env.removePlaintextOk = false
          then [DeleteFailure.plaintextFile] else []) ++
        (if h.metadataFile.isSome ∧ env.removeMetadataOk = false
          then [DeleteFailure.metadataFile] else []))) := by
  obtain ⟨cfg, urn, sf, pf, mf, td⟩ := h
  rcases Bool.eq_false_or_eq_true env.removeSecureOk with hrs | hrs <;>
    rcases Bool.eq_false_or_eq_true env.removePlaintextOk with hrp | hrp <;>
      rcases Bool.eq_false_or_eq_true env.removeMetadataOk with hrm | hrm <;>
        cases sf <;> cases pf <;> cases mf <;>
          simp [HybridStore.Delete, HybridStore.secureFileExists,
            HybridStore.plaintextFileExists, HybridStore.metadataFileExists,
            hrs, hrp, hrm]

end OSProfiles
